import Mathlib

/-!
Shallow embedding of the Game-of-Life repository (`gol.go` and the two
related variants).  The Go `World` is a `map[Coord]Cell`; here it is a
finite map: a key set together with a lookup function that returns the Go
zero value `Cell{false, 0}` on missing keys, exactly as a Go map read does.
-/

set_option maxHeartbeats 1000000
set_option maxRecDepth 8000

/-- `Cell` of the Go sources: the alive flag and the live-neighbour counter `n`. -/
structure Cell where
  alive : Bool
  n : Int
deriving DecidableEq

/-- `Coord` of the Go sources: a plain 2-d Cartesian coordinate. -/
structure Coord where
  x : Int
  y : Int
deriving DecidableEq

/-- The Go zero value of `Cell`: what `world[c]` yields when `c` is absent. -/
def deadCell : Cell := ⟨false, 0⟩

/-- The cell written by the rule application: `Cell{true, 0}`. -/
def liveCell : Cell := ⟨true, 0⟩

/-- `World = map[Coord]Cell`: a finite key set plus the map lookup, normalised
so that the lookup returns the zero value `deadCell` off the key set (as a Go
map read does). -/
structure World where
  keys : Finset Coord
  cellOf : Coord → Cell
  default_off : ∀ c, c ∉ keys → cellOf c = deadCell

/-- The nine offsets produced by the nested loops `for i := -1; i < 2`,
`for j := -1; j < 2` of the Go sources. -/
def offsets : List (Int × Int) :=
  [(-1, -1), (-1, 0), (-1, 1), (0, -1), (0, 0), (0, 1), (1, -1), (1, 0), (1, 1)]

/-- `Coord{coord.x + i, coord.y + j}` for an offset pair `(i, j)`. -/
def shift (c : Coord) (p : Int × Int) : Coord := ⟨c.x + p.1, c.y + p.2⟩

/-- The neighbour-counting loop body of the Go sources: over the nine offsets,
count those with `(i != 0 || j != 0) && world[c].alive`. -/
def liveNeighbourCount (w : World) (c : Coord) : Int :=
  ((offsets.countP fun p =>
    (decide (p.1 ≠ 0) || decide (p.2 ≠ 0)) && (w.cellOf (shift c p)).alive) : Nat)

/-- The block of keys `Coord{coord.x + i, coord.y + j}` that `Inflate` makes
sure exist around one key `coord` (the offsets include `(0, 0)`). -/
def mooreArea (c : Coord) : Finset Coord := (offsets.map (shift c)).toFinset

/-- `Inflate`: every existing entry is copied (`newWorld[coord] = cell`), and
every coordinate of each entry's 3×3 block that is not yet present is inserted
as `Cell{false, 0}`.  Because the lookup is already normalised to `deadCell`
off the keys, the lookup function itself is unchanged. -/
def Inflate (w : World) : World where
  keys := w.keys ∪ w.keys.biUnion mooreArea
  cellOf := w.cellOf
  default_off := fun c hc => w.default_off c fun hk => hc (Finset.mem_union_left _ hk)

/-- `CountLiveNeighbours` of the staged variant: for every key, store
`Cell{cell.alive, n}` with `n` the counted live neighbours; keys unchanged. -/
def CountLiveNeighbours (w : World) : World where
  keys := w.keys
  cellOf := fun c =>
    if c ∈ w.keys then ⟨(w.cellOf c).alive, liveNeighbourCount w c⟩ else deadCell
  default_off := by intro c hc; simp [hc]

/-- The rule body of `ApplyRules` (identical in the monolithic `Tick`): an
entry is written to the new world iff it is alive with `1 < cell.n && cell.n < 4`,
or dead with `cell.n == 3`. -/
def keptByRules (cell : Cell) : Bool :=
  if cell.alive then decide (1 < cell.n) && decide (cell.n < 4) else decide (cell.n = 3)

/-- `ApplyRules`: the entries satisfying the rule are written as `Cell{true, 0}`
into a fresh map; all other entries are dropped. -/
def ApplyRules (w : World) : World where
  keys := w.keys.filter fun c => keptByRules (w.cellOf c) = true
  cellOf := fun c => if keptByRules (w.cellOf c) then liveCell else deadCell
  default_off := by
    intro c hc
    rw [Finset.mem_filter] at hc
    push_neg at hc
    by_cases hk : c ∈ w.keys
    · simp [hc hk]
    · simp [w.default_off c hk, keptByRules, deadCell]

/-- `Deflate`: only the entries with `cell.alive` remain, keeping their values. -/
def Deflate (w : World) : World where
  keys := w.keys.filter fun c => (w.cellOf c).alive = true
  cellOf := fun c => if (w.cellOf c).alive then w.cellOf c else deadCell
  default_off := by
    intro c hc
    rw [Finset.mem_filter] at hc
    push_neg at hc
    by_cases hk : c ∈ w.keys
    · simp [hc hk]
    · simp [w.default_off c hk, deadCell]

/-- `Tick` of the staged variant:
`world.Inflate().CountLiveNeighbours().ApplyRules().Deflate()`. -/
def Tick (w : World) : World := Deflate (ApplyRules (CountLiveNeighbours (Inflate w)))

/-- The empty world `make(World)`. -/
def emptyWorld : World := ⟨∅, fun _ => deadCell, fun _ _ => rfl⟩

/-- The world the Go mains build from an initial collection of coordinates:
`world[coord] = Cell{true, 0}` for each one. -/
def worldOf (S : Finset Coord) : World where
  keys := S
  cellOf := fun c => if c ∈ S then liveCell else deadCell
  default_off := by intro c hc; simp [hc]

/-- One iteration of the first loop of the monolithic `Tick` (`gol.go`): write
`world[coord] = Cell{cell.alive, n}` back into the receiver, with `n` counted
against the current state of the receiver (only counters were changed so far,
so the alive flags it reads are the original ones). -/
def countStep (w : World) (c : Coord) : World where
  keys := insert c w.keys
  cellOf := fun d =>
    if d = c then ⟨(w.cellOf c).alive, liveNeighbourCount w c⟩ else w.cellOf d
  default_off := by
    intro d hd
    have h1 : d ≠ c := fun h => hd (h ▸ Finset.mem_insert_self c w.keys)
    have h2 : d ∉ w.keys := fun h => hd (Finset.mem_insert_of_mem h)
    simp [h1, w.default_off d h2]

/-- The first loop of the monolithic `Tick`: the in-place counting pass over
the receiver's keys, visited in the order `order` (Go map iteration order is
unspecified). -/
def countInPlace (w : World) (order : List Coord) : World := order.foldl countStep w

/-- The monolithic `Tick` of `gol.go` (and of the cobra variant): it first
mutates its receiver, storing each entry's live-neighbour count in place, and
then builds the new world by the rules.  `TickMono w order` is the pair
(returned world, final state of the receiver) when the counting loop visits
the keys in the order `order`. -/
def TickMono (w : World) (order : List Coord) : World × World :=
  (ApplyRules (countInPlace w order), countInPlace w order)

/-- Translation of a coordinate by the offset `(dx, dy)`. -/
def translateCoord (dx dy : Int) (c : Coord) : Coord := ⟨c.x + dx, c.y + dy⟩

/-- Translation of a whole world by the offset `(dx, dy)`. -/
def translateWorld (dx dy : Int) (w : World) : World where
  keys := w.keys.image (translateCoord dx dy)
  cellOf := fun c => w.cellOf ⟨c.x - dx, c.y - dy⟩
  default_off := by
    intro c hc
    apply w.default_off
    intro hk
    apply hc
    rw [Finset.mem_image]
    refine ⟨⟨c.x - dx, c.y - dy⟩, hk, ?_⟩
    show Coord.mk (c.x - dx + dx) (c.y - dy + dy) = c
    have hx : c.x - dx + dx = c.x := by ring
    have hy : c.y - dy + dy = c.y := by ring
    rw [hx, hy]

/-- The worlds printed by the `for i := 0; i < ticks; i++` loop of the mains:
each pass advances the world one generation and prints it. -/
def golRun (w : World) : Nat → List World
  | 0 => []
  | n + 1 => Tick w :: golRun (Tick w) n

/-- The gnuplot blocks emitted by `gol.go`'s and the cobra variant's mains: one
`gnuplotWorld(world)` call before the loop (generation 0), then one per loop
pass.  Each block is identified with the world it prints. -/
def blocksCobra (w : World) (ticks : Nat) : List World := w :: golRun w ticks

/-- The gnuplot blocks emitted by the flag variant's main: its
`gnuplotWorld(world)` call before the loop is commented out, so only the loop
passes print. -/
def blocksFlag (w : World) (ticks : Nat) : List World := golRun w ticks

/-- `strings.Split` for a one-character separator (the repository only splits
on `";"` and `","`): the accumulator collects the current field in reverse. -/
def goSplitAux (sep : Char) : List Char → List Char → List String
  | [], acc => [String.mk acc.reverse]
  | ch :: rest, acc =>
    if ch = sep then String.mk acc.reverse :: goSplitAux sep rest []
    else goSplitAux sep rest (ch :: acc)

/-- `strings.Split(s, sep)` for a one-character separator; never returns an
empty list (`Split("", sep)` is `[""]`). -/
def goSplit (sep : Char) (s : String) : List String := goSplitAux sep s.data []

/-- A run of decimal digits, as `strconv.Atoi` reads it: at least one digit,
digits only. -/
def parseDigits : List Char → Option Nat
  | [] => none
  | [ch] => if '0' ≤ ch ∧ ch ≤ '9' then some (ch.toNat - '0'.toNat) else none
  | ch :: rest =>
    match parseDigits rest, if '0' ≤ ch ∧ ch ≤ '9' then some (ch.toNat - '0'.toNat) else none with
    | some m, some d => some (d * 10 ^ rest.length + m)
    | _, _ => none

/-- `strconv.Atoi`: an optional sign followed by at least one digit, nothing
else; the value must fit the 64-bit `int` (on overflow `Atoi` returns an
error). -/
def goAtoi (s : String) : Option Int :=
  match s.data with
  | '+' :: rest =>
    match parseDigits rest with
    | some m => if m ≤ 2 ^ 63 - 1 then some (m : Int) else none
    | none => none
  | '-' :: rest =>
    match parseDigits rest with
    | some m => if m ≤ 2 ^ 63 then some (-(m : Int)) else none
    | none => none
  | l =>
    match parseDigits l with
    | some m => if m ≤ 2 ^ 63 - 1 then some (m : Int) else none
    | none => none

/-- Outcome of running one of the pattern parsers: a parsed coordinate list,
a reported failure (`fmt.Println` of the problem followed by `os.Exit(1)`), or
a runtime panic (an unchecked index out of range). -/
inductive ParseOutcome where
  | ok (cs : List Coord)
  | reported
  | panicked
deriving DecidableEq

/-- One entry of the cobra variant's pattern loop: split on `","`, report when
fewer than two fields, report when `Atoi` fails on the first or second field,
otherwise yield `Coord{x, y}` (fields beyond the second are not looked at). -/
def cobraEntry (xy : String) : Option Coord :=
  if (goSplit ',' xy).length < 2 then none
  else
    match goAtoi ((goSplit ',' xy).getD 0 ""), goAtoi ((goSplit ',' xy).getD 1 "") with
    | some x, some y => some ⟨x, y⟩
    | _, _ => none

/-- The cobra variant's pattern loop over the `";"`-separated entries: the
first failing entry exits the process. -/
def cobraLoop : List String → ParseOutcome
  | [] => .ok []
  | xy :: rest =>
    match cobraEntry xy with
    | none => .reported
    | some c =>
      match cobraLoop rest with
      | .ok cs => .ok (c :: cs)
      | r => r

/-- The cobra variant's pattern parsing (`gol` in the cobra file):
`strings.Split(pattern, ";")` then the entry loop. -/
def parsePatternCobra (pattern : String) : ParseOutcome :=
  cobraLoop (goSplit ';' pattern)

/-- One entry of the flag variant's loop (`handleCommandLine`): there is no
field-count check.  `strconv.Atoi(xy[0])` runs first (reporting on error);
then `xy[1]` is read, which panics when the entry has a single field; then
`Atoi` of it (reporting on error). -/
def flagEntry (xy : String) : ParseOutcome :=
  match goAtoi ((goSplit ',' xy).getD 0 "") with
  | none => .reported
  | some x =>
    if (goSplit ',' xy).length < 2 then .panicked
    else
      match goAtoi ((goSplit ',' xy).getD 1 "") with
      | none => .reported
      | some y => .ok [⟨x, y⟩]

/-- The flag variant's loop over the `";"`-separated entries. -/
def flagLoop : List String → ParseOutcome
  | [] => .ok []
  | xy :: rest =>
    match flagEntry xy with
    | .ok cs =>
      match flagLoop rest with
      | .ok cs' => .ok (cs ++ cs')
      | r => r
    | r => r

/-- The flag variant's pattern parsing (`handleCommandLine`, non-random
branch): `strings.Split(*coordinatesOpt, ";")` then the entry loop. -/
def parsePatternFlag (pattern : String) : ParseOutcome :=
  flagLoop (goSplit ';' pattern)

/-- Modelled from the claim's words: an entry is malformed when it does not
have exactly two comma-separated fields or when one of its first two fields is
not an integer token. -/
def specMalformedEntry (xy : String) : Bool :=
  decide ((goSplit ',' xy).length ≠ 2) || (goAtoi ((goSplit ',' xy).getD 0 "")).isNone ||
    (goAtoi ((goSplit ',' xy).getD 1 "")).isNone

/-- The check the cobra variant actually performs on an entry: fewer than two
fields, or `Atoi` failing on the first or second field. -/
def cobraBadEntry (xy : String) : Bool :=
  decide ((goSplit ',' xy).length < 2) || (goAtoi ((goSplit ',' xy).getD 0 "")).isNone ||
    (goAtoi ((goSplit ',' xy).getD 1 "")).isNone

/-- The five-cell starting pattern `1,0;0,1;1,1;1,2;2,2` shared by all three
mains (the r-pentomino, per the comment in `gol.go`). -/
def rPentomino : Finset Coord := {⟨1, 0⟩, ⟨0, 1⟩, ⟨1, 1⟩, ⟨1, 2⟩, ⟨2, 2⟩}

/-- Generation 1 of the r-pentomino. -/
def rp1 : Finset Coord := {⟨0, 0⟩, ⟨1, 0⟩, ⟨0, 1⟩, ⟨0, 2⟩, ⟨1, 2⟩, ⟨2, 2⟩}

/-- Generation 2 of the r-pentomino. -/
def rp2 : Finset Coord := {⟨0, 0⟩, ⟨1, 0⟩, ⟨-1, 1⟩, ⟨2, 1⟩, ⟨0, 2⟩, ⟨1, 2⟩, ⟨1, 3⟩}

/-- Generation 3 of the r-pentomino. -/
def rp3 : Finset Coord :=
  {⟨0, 0⟩, ⟨1, 0⟩, ⟨-1, 1⟩, ⟨2, 1⟩, ⟨0, 2⟩, ⟨1, 2⟩, ⟨2, 2⟩, ⟨0, 3⟩, ⟨1, 3⟩}

/-- Generation 4 of the r-pentomino: eight cells, not a translate of the
starting five. -/
def rp4 : Finset Coord :=
  {⟨0, 0⟩, ⟨1, 0⟩, ⟨-1, 1⟩, ⟨2, 1⟩, ⟨-1, 2⟩, ⟨2, 2⟩, ⟨0, 3⟩, ⟨2, 3⟩}

/-- The starting world of the mains: the r-pentomino pattern, all alive. -/
def rpWorld : World := worldOf rPentomino

/-- A 2×2 block of live cells (a still life), used as a concrete test world. -/
def blockWorld : World := worldOf {⟨0, 0⟩, ⟨1, 0⟩, ⟨0, 1⟩, ⟨1, 1⟩}

/-- Two horizontally adjacent live cells, used as a concrete test world. -/
def pairWorld : World := worldOf {⟨0, 0⟩, ⟨1, 0⟩}

/-- A single live cell at the origin, used as a concrete test world. -/
def originWorld : World := worldOf {⟨0, 0⟩}

/-- A world holding one live cell whose scratch counter is 5 instead of 0,
used to exercise independence from the scratch field. -/
def scratchWorld : World where
  keys := {⟨0, 0⟩}
  cellOf := fun c => if c = ⟨0, 0⟩ then ⟨true, 5⟩ else deadCell
  default_off := by
    intro c hc
    rw [Finset.mem_singleton] at hc
    simp [hc]

/-- An enumeration of the keys of `Inflate originWorld`. -/
def singleOrder : List Coord :=
  [⟨-1, -1⟩, ⟨-1, 0⟩, ⟨-1, 1⟩, ⟨0, -1⟩, ⟨0, 0⟩, ⟨0, 1⟩, ⟨1, -1⟩, ⟨1, 0⟩, ⟨1, 1⟩]

/-- An enumeration of the keys of `pairWorld`. -/
def pairOrder : List Coord := [⟨0, 0⟩, ⟨1, 0⟩]

instance : DecidableEq World := fun w₁ w₂ =>
  decidable_of_iff
    (w₁.keys = w₂.keys ∧ ∀ c ∈ w₁.keys, w₁.cellOf c = w₂.cellOf c)
    (by
      constructor
      · rintro ⟨hk, hc⟩
        have hall : ∀ c, w₁.cellOf c = w₂.cellOf c := by
          intro c
          by_cases h : c ∈ w₁.keys
          · exact hc c h
          · rw [w₁.default_off c h, w₂.default_off c (hk ▸ h)]
        obtain ⟨k₁, f₁, h₁⟩ := w₁
        obtain ⟨k₂, f₂, h₂⟩ := w₂
        simp only at hk hall
        subst hk
        have hf : f₁ = f₂ := funext hall
        subst hf
        rfl
      · rintro rfl
        exact ⟨rfl, fun c _ => rfl⟩)

/-! ## General lemmas about worlds and the pipeline stages -/

/-- Two worlds with the same keys and the same lookup are equal. -/
theorem World.eqOf {w₁ w₂ : World} (hk : w₁.keys = w₂.keys)
    (hc : ∀ c, w₁.cellOf c = w₂.cellOf c) : w₁ = w₂ := by
  obtain ⟨k₁, f₁, h₁⟩ := w₁
  obtain ⟨k₂, f₂, h₂⟩ := w₂
  simp only at hk hc
  subst hk
  have hf : f₁ = f₂ := funext hc
  subst hf
  rfl

/-- A coordinate whose lookup is alive is a key of the map. -/
theorem mem_keys_of_alive {w : World} {c : Coord} (h : (w.cellOf c).alive = true) :
    c ∈ w.keys := by
  by_contra hc
  rw [w.default_off c hc] at h
  simp [deadCell] at h

/-- The live-neighbour count only reads the alive flags of the lookups. -/
theorem liveNeighbourCount_congr {w₁ w₂ : World}
    (h : ∀ d, (w₁.cellOf d).alive = (w₂.cellOf d).alive) (c : Coord) :
    liveNeighbourCount w₁ c = liveNeighbourCount w₂ c := by
  unfold liveNeighbourCount
  congr 1
  apply List.countP_congr
  intro p _
  rw [h (shift c p)]

/-- The rule body, spelled out: kept iff alive with count 2 or 3, or dead with
count exactly 3. -/
theorem keptByRules_iff (a : Bool) (n : Int) :
    keptByRules ⟨a, n⟩ = true ↔
      (a = true ∧ (n = 2 ∨ n = 3)) ∨ (a = false ∧ n = 3) := by
  cases a
  · simp [keptByRules]
  · simp [keptByRules]
    omega

/-- `Inflate` does not change the lookup function. -/
theorem Inflate_cellOf (w : World) : (Inflate w).cellOf = w.cellOf := rfl

/-- `Inflate` does not change the live-neighbour counts. -/
theorem liveNeighbourCount_Inflate (w : World) (c : Coord) :
    liveNeighbourCount (Inflate w) c = liveNeighbourCount w c := rfl

/-- The original keys survive `Inflate`. -/
theorem keys_subset_Inflate (w : World) : w.keys ⊆ (Inflate w).keys :=
  fun _ h => Finset.mem_union_left _ h

/-- The nine offsets are closed under negation. -/
theorem neg_mem_offsets {p : Int × Int} (hp : p ∈ offsets) :
    (-p.1, -p.2) ∈ offsets := by
  fin_cases hp <;> simp [offsets]

/-- Shifting by an offset and then by its negation comes back. -/
theorem shift_shift_neg (c : Coord) (p : Int × Int) :
    shift (shift c p) (-p.1, -p.2) = c := by
  obtain ⟨x, y⟩ := c
  simp [shift]

/-- A coordinate with a positive live-neighbour count has a live neighbour. -/
theorem exists_live_of_count_ne_zero {w : World} {c : Coord}
    (h : liveNeighbourCount w c ≠ 0) :
    ∃ p ∈ offsets, (w.cellOf (shift c p)).alive = true := by
  unfold liveNeighbourCount at h
  by_contra hall
  push_neg at hall
  have : (offsets.countP fun p =>
      (decide (p.1 ≠ 0) || decide (p.2 ≠ 0)) && (w.cellOf (shift c p)).alive) = 0 := by
    rw [List.countP_eq_zero]
    intro p hp
    simp [hall p hp]
  rw [this] at h
  exact h rfl

/-- A coordinate with a positive live-neighbour count lies in the inflated key
set: some neighbour is alive, hence is a key, and the coordinate is in that
neighbour's 3×3 block. -/
theorem mem_Inflate_of_count {w : World} {c : Coord}
    (h : liveNeighbourCount w c ≠ 0) : c ∈ (Inflate w).keys := by
  obtain ⟨p, hp, halive⟩ := exists_live_of_count_ne_zero h
  apply Finset.mem_union_right
  rw [Finset.mem_biUnion]
  refine ⟨shift c p, mem_keys_of_alive halive, ?_⟩
  rw [mooreArea, List.mem_toFinset, List.mem_map]
  exact ⟨(-p.1, -p.2), neg_mem_offsets hp, shift_shift_neg c p⟩

/-- The rules never keep an absent cell. -/
theorem keptByRules_deadCell : keptByRules deadCell = false := rfl

/-- Membership in the keys of a `Deflate`. -/
theorem mem_Deflate_keys (w : World) (c : Coord) :
    c ∈ (Deflate w).keys ↔ c ∈ w.keys ∧ (w.cellOf c).alive = true := by
  show c ∈ w.keys.filter _ ↔ _
  rw [Finset.mem_filter]

/-- The lookup of a `Deflate`. -/
theorem Deflate_cellOf (w : World) (c : Coord) :
    (Deflate w).cellOf c = if (w.cellOf c).alive then w.cellOf c else deadCell := rfl

/-- Membership in the keys of an `ApplyRules`. -/
theorem mem_ApplyRules_keys (w : World) (c : Coord) :
    c ∈ (ApplyRules w).keys ↔ c ∈ w.keys ∧ keptByRules (w.cellOf c) = true := by
  show c ∈ w.keys.filter _ ↔ _
  rw [Finset.mem_filter]

/-- The lookup of an `ApplyRules`. -/
theorem ApplyRules_cellOf (w : World) (c : Coord) :
    (ApplyRules w).cellOf c = if keptByRules (w.cellOf c) then liveCell else deadCell := rfl

/-- The keys of a `CountLiveNeighbours`. -/
theorem CountLiveNeighbours_keys (w : World) :
    (CountLiveNeighbours w).keys = w.keys := rfl

/-- The lookup of a `CountLiveNeighbours`. -/
theorem CountLiveNeighbours_cellOf (w : World) (c : Coord) :
    (CountLiveNeighbours w).cellOf c =
      if c ∈ w.keys then ⟨(w.cellOf c).alive, liveNeighbourCount w c⟩ else deadCell := rfl

/-- The keys of an `Inflate`. -/
theorem Inflate_keys (w : World) :
    (Inflate w).keys = w.keys ∪ w.keys.biUnion mooreArea := rfl

/-- Membership in the result of a `Tick`, characterised over the input world:
a key of the result iff in the inflated key set and kept by the rules applied
to the input's alive flag and live-neighbour count. -/
theorem mem_Tick_keys (w : World) (c : Coord) :
    c ∈ (Tick w).keys ↔
      c ∈ (Inflate w).keys ∧
        keptByRules ⟨(w.cellOf c).alive, liveNeighbourCount w c⟩ = true := by
  have hcell : (CountLiveNeighbours (Inflate w)).cellOf c
      = if c ∈ (Inflate w).keys then ⟨(w.cellOf c).alive, liveNeighbourCount w c⟩
        else deadCell := rfl
  show c ∈ (Deflate (ApplyRules (CountLiveNeighbours (Inflate w)))).keys ↔ _
  rw [mem_Deflate_keys, mem_ApplyRules_keys, CountLiveNeighbours_keys, ApplyRules_cellOf, hcell]
  by_cases hmem : c ∈ (Inflate w).keys
  · simp only [if_pos hmem]
    by_cases hkept : keptByRules ⟨(w.cellOf c).alive, liveNeighbourCount w c⟩ = true
    · simp [hkept, liveCell, hmem]
    · simp [hkept, hmem]
  · simp [hmem, keptByRules_deadCell]

/-- The lookup of the result of a `Tick` is `liveCell` on its keys and
`deadCell` elsewhere. -/
theorem Tick_cellOf (w : World) (c : Coord) :
    (Tick w).cellOf c = if c ∈ (Tick w).keys then liveCell else deadCell := by
  have hcell : (CountLiveNeighbours (Inflate w)).cellOf c
      = if c ∈ (Inflate w).keys then ⟨(w.cellOf c).alive, liveNeighbourCount w c⟩
        else deadCell := rfl
  by_cases h : c ∈ (Tick w).keys
  · rw [if_pos h]
    rw [mem_Tick_keys] at h
    obtain ⟨hmem, hkept⟩ := h
    show (Deflate (ApplyRules (CountLiveNeighbours (Inflate w)))).cellOf c = liveCell
    rw [Deflate_cellOf, ApplyRules_cellOf, hcell, if_pos hmem, if_pos hkept]
    simp [liveCell]
  · rw [if_neg h]
    exact (Tick w).default_off c h

/-! ## Claim C1: the B3/S23 rule -/

/-- C1: for every finite world whose entries are all alive and every
coordinate `c`, `c` is live in (and a key of) `Tick`'s result iff either `c`
is live in the input with exactly 2 or 3 live Moore neighbours, or `c` is
dead/absent with exactly 3 live Moore neighbours; in all other cases it is
absent from the result. -/
theorem claim_C1_rule (w : World)
    (_hw : ∀ c ∈ w.keys, (w.cellOf c).alive = true) (c : Coord) :
    (c ∈ (Tick w).keys ↔
        ((w.cellOf c).alive = true ∧
          (liveNeighbourCount w c = 2 ∨ liveNeighbourCount w c = 3)) ∨
        ((w.cellOf c).alive = false ∧ liveNeighbourCount w c = 3)) ∧
    (((Tick w).cellOf c).alive = true ↔
        ((w.cellOf c).alive = true ∧
          (liveNeighbourCount w c = 2 ∨ liveNeighbourCount w c = 3)) ∨
        ((w.cellOf c).alive = false ∧ liveNeighbourCount w c = 3)) := by
  have hmain : c ∈ (Tick w).keys ↔
      ((w.cellOf c).alive = true ∧
        (liveNeighbourCount w c = 2 ∨ liveNeighbourCount w c = 3)) ∨
      ((w.cellOf c).alive = false ∧ liveNeighbourCount w c = 3) := by
    rw [mem_Tick_keys, keptByRules_iff]
    constructor
    · rintro ⟨-, h⟩
      exact h
    · intro h
      refine ⟨?_, h⟩
      rcases h with ⟨ha, -⟩ | ⟨-, h3⟩
      · exact keys_subset_Inflate w (mem_keys_of_alive ha)
      · exact mem_Inflate_of_count (by omega)
  refine ⟨hmain, ?_⟩
  rw [Tick_cellOf]
  by_cases h : c ∈ (Tick w).keys
  · rw [if_pos h]
    constructor
    · intro _
      exact hmain.mp h
    · intro _
      rfl
  · rw [if_neg h]
    constructor
    · intro hfalse
      exact absurd hfalse (by simp [deadCell])
    · intro hr
      exact absurd (hmain.mpr hr) h

/-- Witness for C1 at the 2×2 block and the coordinate `(0, 0)`. -/
theorem claim_C1_rule_witness :
    (∀ c ∈ blockWorld.keys, (blockWorld.cellOf c).alive = true) ∧
    ((⟨0, 0⟩ : Coord) ∈ (Tick blockWorld).keys ↔
        ((blockWorld.cellOf ⟨0, 0⟩).alive = true ∧
          (liveNeighbourCount blockWorld ⟨0, 0⟩ = 2 ∨
            liveNeighbourCount blockWorld ⟨0, 0⟩ = 3)) ∨
        ((blockWorld.cellOf ⟨0, 0⟩).alive = false ∧
          liveNeighbourCount blockWorld ⟨0, 0⟩ = 3)) ∧
    (((Tick blockWorld).cellOf ⟨0, 0⟩).alive = true ↔
        ((blockWorld.cellOf ⟨0, 0⟩).alive = true ∧
          (liveNeighbourCount blockWorld ⟨0, 0⟩ = 2 ∨
            liveNeighbourCount blockWorld ⟨0, 0⟩ = 3)) ∨
        ((blockWorld.cellOf ⟨0, 0⟩).alive = false ∧
          liveNeighbourCount blockWorld ⟨0, 0⟩ = 3)) := by
  refine ⟨by decide, ?_, ?_⟩
  · exact (claim_C1_rule blockWorld (by decide) ⟨0, 0⟩).1
  · exact (claim_C1_rule blockWorld (by decide) ⟨0, 0⟩).2

/-! ## Claim C3: sparsity and scratch reset -/

/-- C3: every entry of a `Tick` result has `alive = true` and `n = 0`. -/
theorem claim_C3_sparsity (w : World) (c : Coord) (hc : c ∈ (Tick w).keys) :
    ((Tick w).cellOf c).alive = true ∧ ((Tick w).cellOf c).n = 0 := by
  rw [Tick_cellOf, if_pos hc]
  exact ⟨rfl, rfl⟩

/-- Witness for C3 at the 2×2 block and the coordinate `(0, 0)`. -/
theorem claim_C3_sparsity_witness :
    (⟨0, 0⟩ : Coord) ∈ (Tick blockWorld).keys ∧
    ((Tick blockWorld).cellOf ⟨0, 0⟩).alive = true ∧
    ((Tick blockWorld).cellOf ⟨0, 0⟩).n = 0 :=
  ⟨by decide, claim_C3_sparsity blockWorld ⟨0, 0⟩ (by decide)⟩

/-! ## Claim C9: totality on the empty world -/

/-- C9: `Tick` of the empty world is the empty world, and hence iterating
`Tick` any number of times on the empty world yields the empty world (the
operation is a total function, so no error condition exists). -/
theorem claim_C9_empty :
    Tick emptyWorld = emptyWorld ∧ ∀ n : Nat, Tick^[n] emptyWorld = emptyWorld := by
  have h : Tick emptyWorld = emptyWorld := by decide
  exact ⟨h, fun n => Function.iterate_fixed h n⟩

/-! ## Claim C10: the scratch field of the input is never read -/

/-- C10: two worlds with the same keys and the same alive flags, differing
only in the scratch counters, produce equal `Tick` results. -/
theorem claim_C10_scratch_independent (w₁ w₂ : World) (hk : w₁.keys = w₂.keys)
    (ha : ∀ c ∈ w₁.keys, (w₁.cellOf c).alive = (w₂.cellOf c).alive) :
    Tick w₁ = Tick w₂ := by
  have hall : ∀ c, (w₁.cellOf c).alive = (w₂.cellOf c).alive := by
    intro c
    by_cases h : c ∈ w₁.keys
    · exact ha c h
    · rw [w₁.default_off c h, w₂.default_off c (hk ▸ h)]
  have hik : (Inflate w₁).keys = (Inflate w₂).keys := by
    rw [Inflate_keys, Inflate_keys, hk]
  have hcount : CountLiveNeighbours (Inflate w₁) = CountLiveNeighbours (Inflate w₂) := by
    apply World.eqOf
    · show (Inflate w₁).keys = (Inflate w₂).keys
      exact hik
    · intro c
      rw [CountLiveNeighbours_cellOf, CountLiveNeighbours_cellOf,
        Inflate_cellOf, Inflate_cellOf, liveNeighbourCount_Inflate,
        liveNeighbourCount_Inflate]
      by_cases h : c ∈ (Inflate w₁).keys
      · rw [if_pos h, if_pos (hik ▸ h)]
        rw [Cell.mk.injEq]
        exact ⟨hall c, liveNeighbourCount_congr hall c⟩
      · rw [if_neg h, if_neg fun hh => h (hik ▸ hh)]
  show Deflate (ApplyRules (CountLiveNeighbours (Inflate w₁))) = _
  rw [hcount]
  rfl

/-- Witness for C10: a plain live cell at the origin against one whose scratch
counter is 5. -/
theorem claim_C10_scratch_independent_witness :
    originWorld.keys = scratchWorld.keys ∧
    (∀ c ∈ originWorld.keys,
      (originWorld.cellOf c).alive = (scratchWorld.cellOf c).alive) ∧
    Tick originWorld = Tick scratchWorld := by
  refine ⟨by decide, by decide, ?_⟩
  exact claim_C10_scratch_independent originWorld scratchWorld (by decide) (by decide)

/-! ## The in-place counting pass of the monolithic `Tick` -/

/-- The keys after one in-place counting step. -/
theorem countStep_keys (w : World) (c : Coord) :
    (countStep w c).keys = insert c w.keys := rfl

/-- The lookup after one in-place counting step. -/
theorem countStep_cellOf (w : World) (c d : Coord) :
    (countStep w c).cellOf d =
      if d = c then ⟨(w.cellOf c).alive, liveNeighbourCount w c⟩ else w.cellOf d := rfl

/-- The in-place counting pass of the monolithic `Tick` computes
`CountLiveNeighbours` of the receiver's starting state, for every visiting
order that covers exactly the keys.  The invariant: the evolving receiver `w`
keeps the starting state `w0`'s keys and alive flags, already agrees with the
final counts away from the remaining order, and the remaining order holds
keys only. -/
theorem countInPlace_eq (order : List Coord) : ∀ w w0 : World,
    w.keys = w0.keys →
    (∀ c, (w.cellOf c).alive = (w0.cellOf c).alive) →
    (∀ c, c ∉ order → w.cellOf c = (CountLiveNeighbours w0).cellOf c) →
    (∀ c, c ∈ order → c ∈ w0.keys) →
    countInPlace w order = CountLiveNeighbours w0 := by
  induction order with
  | nil =>
    intro w w0 hk ha hdone hsub
    apply World.eqOf
    · show w.keys = (CountLiveNeighbours w0).keys
      rw [CountLiveNeighbours_keys]
      exact hk
    · intro c
      exact hdone c (List.not_mem_nil c)
  | cons c rest ih =>
    intro w w0 hk ha hdone hsub
    have hck : c ∈ w.keys := by
      rw [hk]
      exact hsub c (List.mem_cons_self c rest)
    show countInPlace (countStep w c) rest = CountLiveNeighbours w0
    apply ih
    · rw [countStep_keys, Finset.insert_eq_self.mpr hck]
      exact hk
    · intro d
      rw [countStep_cellOf]
      by_cases hdc : d = c
      · rw [if_pos hdc, hdc]
        exact ha c
      · rw [if_neg hdc]
        exact ha d
    · intro d hd
      rw [countStep_cellOf]
      by_cases hdc : d = c
      · rw [if_pos hdc, hdc, CountLiveNeighbours_cellOf,
          if_pos (hsub c (List.mem_cons_self c rest)), Cell.mk.injEq]
        exact ⟨ha c, liveNeighbourCount_congr ha c⟩
      · rw [if_neg hdc]
        apply hdone
        rw [List.mem_cons]
        rintro (h | h)
        · exact hdc h
        · exact hd h
    · intro d hd
      exact hsub d (List.mem_cons_of_mem c hd)

/-! ## Claim C2: the staged pipeline equals the monolithic pipeline -/

/-- C2: for every finite world and every visiting order of the inflated keys,
the monolithic pipeline `world.Inflate().Tick().Deflate()` of `gol.go` yields
the same world as the staged `Tick` of the flag variant. -/
theorem claim_C2_pipelines_equal (w : World) (order : List Coord)
    (horder : order.toFinset = (Inflate w).keys) :
    Deflate ((TickMono (Inflate w) order).1) = Tick w := by
  have hmem : ∀ c, c ∈ order ↔ c ∈ (Inflate w).keys := by
    intro c
    rw [← horder, List.mem_toFinset]
  have hcount : countInPlace (Inflate w) order = CountLiveNeighbours (Inflate w) := by
    apply countInPlace_eq
    · rfl
    · intro c
      rfl
    · intro c hc
      have hnk : c ∉ (Inflate w).keys := fun hin => hc ((hmem c).mpr hin)
      rw [(Inflate w).default_off c hnk, CountLiveNeighbours_cellOf, if_neg hnk]
    · intro c hc
      exact (hmem c).mp hc
  show Deflate (ApplyRules (countInPlace (Inflate w) order)) = Tick w
  rw [hcount]
  rfl

/-- Witness for C2: one live cell at the origin, with its inflated keys
visited in a fixed order. -/
theorem claim_C2_pipelines_equal_witness :
    singleOrder.toFinset = (Inflate originWorld).keys ∧
    Deflate ((TickMono (Inflate originWorld) singleOrder).1) = Tick originWorld := by
  refine ⟨by decide, ?_⟩
  exact claim_C2_pipelines_equal originWorld singleOrder (by decide)

/-! ## Claim C6: which stages leave their input unchanged -/

/-- C6 counterexample: the monolithic `Tick` of `gol.go` does not leave its
receiver unchanged — after `pairWorld.Tick()` the receiver's entries carry the
counted neighbours (`n = 1`), no longer their original `n = 0`.
`(TickMono w order).2` is the final state of the receiver. -/
theorem claim_C6_counterexample :
    (TickMono pairWorld pairOrder).2 ≠ pairWorld := by decide

/-- C6 as amended: the staged stages build fresh worlds from an unchanged
input, but the monolithic `Tick` rewrites its receiver's scratch counters in
place: the receiver ends as `CountLiveNeighbours` of its starting state —
same keys, same alive flags, only the scratch counters changed — while the
returned world is a separate fresh map. -/
theorem claim_C6_receiver_state (w : World) (order : List Coord)
    (horder : order.toFinset = w.keys) :
    (TickMono w order).2 = CountLiveNeighbours w ∧
    (TickMono w order).2.keys = w.keys ∧
    (∀ c, ((TickMono w order).2.cellOf c).alive = (w.cellOf c).alive) := by
  have hmem : ∀ c, c ∈ order ↔ c ∈ w.keys := by
    intro c
    rw [← horder, List.mem_toFinset]
  have hcount : countInPlace w order = CountLiveNeighbours w := by
    apply countInPlace_eq
    · rfl
    · intro c
      rfl
    · intro c hc
      have hnk : c ∉ w.keys := fun hin => hc ((hmem c).mpr hin)
      rw [w.default_off c hnk, CountLiveNeighbours_cellOf, if_neg hnk]
    · intro c hc
      exact (hmem c).mp hc
  refine ⟨hcount, ?_, ?_⟩
  · show (countInPlace w order).keys = w.keys
    rw [hcount]
    rfl
  · intro c
    show ((countInPlace w order).cellOf c).alive = _
    rw [hcount, CountLiveNeighbours_cellOf]
    by_cases h : c ∈ w.keys
    · rw [if_pos h]
    · rw [if_neg h, w.default_off c h]

/-- Witness for C6's amended statement at the two-cell world. -/
theorem claim_C6_receiver_state_witness :
    pairOrder.toFinset = pairWorld.keys ∧
    (TickMono pairWorld pairOrder).2 = CountLiveNeighbours pairWorld := by
  refine ⟨by decide, ?_⟩
  exact (claim_C6_receiver_state pairWorld pairOrder (by decide)).1

/-! ## Translation equivariance -/

/-- Translating the difference back yields the original coordinate. -/
theorem translateCoord_sub (dx dy : Int) (c : Coord) :
    translateCoord dx dy ⟨c.x - dx, c.y - dy⟩ = c := by
  obtain ⟨x, y⟩ := c
  simp [translateCoord]

/-- Translation of coordinates is injective. -/
theorem translateCoord_injective (dx dy : Int) :
    Function.Injective (translateCoord dx dy) := by
  intro a b h
  obtain ⟨ax, ay⟩ := a
  obtain ⟨bx, b2⟩ := b
  simp only [translateCoord, Coord.mk.injEq] at h ⊢
  omega

/-- Membership in a translated key set, phrased through the difference. -/
theorem mem_image_translateCoord (dx dy : Int) (S : Finset Coord) (c : Coord) :
    c ∈ S.image (translateCoord dx dy) ↔ (⟨c.x - dx, c.y - dy⟩ : Coord) ∈ S := by
  rw [Finset.mem_image]
  constructor
  · rintro ⟨a, ha, rfl⟩
    obtain ⟨ax, ay⟩ := a
    simpa [translateCoord] using ha
  · intro h
    exact ⟨_, h, translateCoord_sub dx dy c⟩

/-- The lookup of a translated world. -/
theorem translateWorld_cellOf (dx dy : Int) (w : World) (c : Coord) :
    (translateWorld dx dy w).cellOf c = w.cellOf ⟨c.x - dx, c.y - dy⟩ := rfl

/-- The keys of a translated world. -/
theorem translateWorld_keys (dx dy : Int) (w : World) :
    (translateWorld dx dy w).keys = w.keys.image (translateCoord dx dy) := rfl

/-- Shifting commutes with translating. -/
theorem shift_translateCoord (dx dy : Int) (c : Coord) (p : Int × Int) :
    shift (translateCoord dx dy c) p = translateCoord dx dy (shift c p) := by
  simp only [shift, translateCoord, Coord.mk.injEq]
  constructor <;> ring

/-- The live-neighbour count of a translated world. -/
theorem liveNeighbourCount_translate (dx dy : Int) (w : World) (c : Coord) :
    liveNeighbourCount (translateWorld dx dy w) c =
      liveNeighbourCount w ⟨c.x - dx, c.y - dy⟩ := by
  unfold liveNeighbourCount
  congr 1
  apply List.countP_congr
  intro p _
  have hco : (⟨(shift c p).x - dx, (shift c p).y - dy⟩ : Coord)
      = shift ⟨c.x - dx, c.y - dy⟩ p := by
    simp only [shift, Coord.mk.injEq]
    constructor <;> ring
  rw [translateWorld_cellOf, hco]

/-- The 3×3 block around a translated coordinate. -/
theorem mooreArea_translate (dx dy : Int) (c : Coord) :
    mooreArea (translateCoord dx dy c) = (mooreArea c).image (translateCoord dx dy) := by
  apply Finset.ext
  intro d
  simp only [mooreArea, List.mem_toFinset, List.mem_map, Finset.mem_image]
  constructor
  · rintro ⟨p, hp, rfl⟩
    exact ⟨shift c p, ⟨p, hp, rfl⟩, (shift_translateCoord dx dy c p).symm⟩
  · rintro ⟨e, ⟨p, hp, rfl⟩, rfl⟩
    exact ⟨p, hp, shift_translateCoord dx dy c p⟩

/-- `Inflate` commutes with translation. -/
theorem Inflate_translate (dx dy : Int) (w : World) :
    Inflate (translateWorld dx dy w) = translateWorld dx dy (Inflate w) := by
  apply World.eqOf
  · show (Inflate (translateWorld dx dy w)).keys = (translateWorld dx dy (Inflate w)).keys
    rw [Inflate_keys, translateWorld_keys, translateWorld_keys, Inflate_keys,
      Finset.image_union]
    congr 1
    apply Finset.ext
    intro d
    rw [Finset.mem_biUnion, Finset.mem_image]
    constructor
    · rintro ⟨a, ha, hd⟩
      rw [Finset.mem_image] at ha
      obtain ⟨b, hb, rfl⟩ := ha
      rw [mooreArea_translate, Finset.mem_image] at hd
      obtain ⟨e, he, rfl⟩ := hd
      exact ⟨e, Finset.mem_biUnion.mpr ⟨b, hb, he⟩, rfl⟩
    · rintro ⟨a, ha, rfl⟩
      rw [Finset.mem_biUnion] at ha
      obtain ⟨b, hb, hab⟩ := ha
      refine ⟨translateCoord dx dy b, Finset.mem_image_of_mem _ hb, ?_⟩
      rw [mooreArea_translate]
      exact Finset.mem_image_of_mem _ hab
  · intro c
    rfl

/-- `CountLiveNeighbours` commutes with translation. -/
theorem CountLiveNeighbours_translate (dx dy : Int) (w : World) :
    CountLiveNeighbours (translateWorld dx dy w)
      = translateWorld dx dy (CountLiveNeighbours w) := by
  apply World.eqOf
  · rfl
  · intro c
    have hmem : c ∈ (translateWorld dx dy w).keys ↔
        (⟨c.x - dx, c.y - dy⟩ : Coord) ∈ w.keys := by
      rw [translateWorld_keys, mem_image_translateCoord]
    rw [CountLiveNeighbours_cellOf]
    rw [show (translateWorld dx dy (CountLiveNeighbours w)).cellOf c
        = (CountLiveNeighbours w).cellOf ⟨c.x - dx, c.y - dy⟩ from rfl]
    rw [CountLiveNeighbours_cellOf]
    by_cases h : (⟨c.x - dx, c.y - dy⟩ : Coord) ∈ w.keys
    · rw [if_pos (hmem.mpr h), if_pos h, Cell.mk.injEq]
      exact ⟨rfl, liveNeighbourCount_translate dx dy w c⟩
    · rw [if_neg (fun hh => h (hmem.mp hh)), if_neg h]

/-- `ApplyRules` commutes with translation. -/
theorem ApplyRules_translate (dx dy : Int) (w : World) :
    ApplyRules (translateWorld dx dy w) = translateWorld dx dy (ApplyRules w) := by
  apply World.eqOf
  · apply Finset.ext
    intro d
    rw [show (translateWorld dx dy (ApplyRules w)).keys
        = (ApplyRules w).keys.image (translateCoord dx dy) from rfl]
    rw [mem_ApplyRules_keys, mem_image_translateCoord, mem_ApplyRules_keys,
      translateWorld_keys, mem_image_translateCoord, translateWorld_cellOf]
  · intro c
    rw [ApplyRules_cellOf]
    rw [show (translateWorld dx dy (ApplyRules w)).cellOf c
        = (ApplyRules w).cellOf ⟨c.x - dx, c.y - dy⟩ from rfl]
    rw [ApplyRules_cellOf, translateWorld_cellOf]

/-- `Deflate` commutes with translation. -/
theorem Deflate_translate (dx dy : Int) (w : World) :
    Deflate (translateWorld dx dy w) = translateWorld dx dy (Deflate w) := by
  apply World.eqOf
  · apply Finset.ext
    intro d
    rw [show (translateWorld dx dy (Deflate w)).keys
        = (Deflate w).keys.image (translateCoord dx dy) from rfl]
    rw [mem_Deflate_keys, mem_image_translateCoord, mem_Deflate_keys,
      translateWorld_keys, mem_image_translateCoord, translateWorld_cellOf]
  · intro c
    rw [Deflate_cellOf]
    rw [show (translateWorld dx dy (Deflate w)).cellOf c
        = (Deflate w).cellOf ⟨c.x - dx, c.y - dy⟩ from rfl]
    rw [Deflate_cellOf, translateWorld_cellOf]

/-- `Tick` commutes with translation. -/
theorem Tick_translate (dx dy : Int) (w : World) :
    Tick (translateWorld dx dy w) = translateWorld dx dy (Tick w) := by
  show Deflate (ApplyRules (CountLiveNeighbours (Inflate (translateWorld dx dy w)))) = _
  rw [Inflate_translate, CountLiveNeighbours_translate, ApplyRules_translate,
    Deflate_translate]
  rfl

/-- Iterated `Tick` commutes with translation. -/
theorem Tick_iterate_translate (dx dy : Int) (N : Nat) :
    ∀ w : World, Tick^[N] (translateWorld dx dy w) = translateWorld dx dy (Tick^[N] w) := by
  induction N with
  | zero =>
    intro w
    rfl
  | succ k ih =>
    intro w
    rw [Function.iterate_succ_apply, Function.iterate_succ_apply, Tick_translate, ih]

/-- Building the initial world commutes with translation. -/
theorem worldOf_translate (dx dy : Int) (S : Finset Coord) :
    worldOf (S.image (translateCoord dx dy)) = translateWorld dx dy (worldOf S) := by
  apply World.eqOf
  · rfl
  · intro c
    show (if c ∈ S.image (translateCoord dx dy) then liveCell else deadCell) = _
    rw [translateWorld_cellOf]
    rw [show (worldOf S).cellOf ⟨c.x - dx, c.y - dy⟩
        = (if (⟨c.x - dx, c.y - dy⟩ : Coord) ∈ S then liveCell else deadCell) from rfl]
    by_cases h : (⟨c.x - dx, c.y - dy⟩ : Coord) ∈ S
    · rw [if_pos ((mem_image_translateCoord dx dy S c).mpr h), if_pos h]
    · rw [if_neg (fun hh => h ((mem_image_translateCoord dx dy S c).mp hh)), if_neg h]

/-! ## Claim C4: translation invariance of runs -/

/-- C4: for every finite set of live coordinates, every offset and every tick
count, running `Tick` N times on the translated pattern yields exactly the
translation of running `Tick` N times on the original pattern. -/
theorem claim_C4_translation_invariance (S : Finset Coord) (dx dy : Int) (N : Nat) :
    Tick^[N] (worldOf (S.image (translateCoord dx dy)))
      = translateWorld dx dy (Tick^[N] (worldOf S)) := by
  rw [worldOf_translate]
  exact Tick_iterate_translate dx dy N (worldOf S)

/-! ## Claim C5: four ticks of the five-cell starting pattern -/

/-- Four ticks of the r-pentomino, computed generation by generation. -/
theorem rpWorld_tick4 : Tick (Tick (Tick (Tick rpWorld))) = worldOf rp4 := by
  have h1 : Tick rpWorld = worldOf rp1 := by decide
  have h2 : Tick (worldOf rp1) = worldOf rp2 := by decide
  have h3 : Tick (worldOf rp2) = worldOf rp3 := by decide
  have h4 : Tick (worldOf rp3) = worldOf rp4 := by decide
  rw [h1, h2, h3, h4]

/-- C5 counterexample: four ticks of the five-cell starting pattern
`{(1,0),(0,1),(1,1),(1,2),(2,2)}` (the r-pentomino, not a glider) are not a
translation of the pattern by any offset whatsoever — the fourth generation
has eight cells, not five. -/
theorem claim_C5_counterexample :
    ¬ ∃ dx dy : Int, Tick (Tick (Tick (Tick rpWorld))) = translateWorld dx dy rpWorld := by
  rintro ⟨dx, dy, h⟩
  rw [rpWorld_tick4] at h
  have hcard : (worldOf rp4).keys.card = (translateWorld dx dy rpWorld).keys.card := by
    rw [h]
  rw [translateWorld_keys,
    Finset.card_image_of_injective _ (translateCoord_injective dx dy)] at hcard
  have h8 : (worldOf rp4).keys.card = 8 := by decide
  have h5 : rpWorld.keys.card = 5 := by decide
  rw [h8, h5] at hcard
  exact absurd hcard (by decide)

/-- C5 as amended: four ticks of the five-cell starting pattern yield exactly
the eight-cell fourth generation of the r-pentomino,
`{(0,0),(1,0),(-1,1),(2,1),(-1,2),(2,2),(0,3),(2,3)}`. -/
theorem claim_C5_rpentomino_tick4 :
    Tick (Tick (Tick (Tick rpWorld))) = worldOf rp4 := rpWorld_tick4

/-! ## Claim C7: one printed block per generation -/

/-- The worlds printed by the tick loop are generations 1 through N. -/
theorem golRun_eq (n : Nat) : ∀ w : World,
    golRun w n = (List.range n).map fun i => Tick^[i + 1] w := by
  induction n with
  | zero =>
    intro w
    rfl
  | succ k ih =>
    intro w
    show Tick w :: golRun (Tick w) k = _
    rw [ih (Tick w), List.range_succ_eq_map, List.map_cons, List.map_map]
    rfl

/-- C7 as amended: the single-file and cobra variants emit one block per
generation including generation 0 — N ticks give N+1 blocks whose i-th block
is generation i — while the flag variant, whose generation-0 print is
commented out, emits only the N blocks of generations 1 through N. -/
theorem claim_C7_blocks_per_generation (w : World) (t : Nat) :
    blocksCobra w t = ((List.range (t + 1)).map fun i => Tick^[i] w) ∧
    blocksFlag w t = ((List.range t).map fun i => Tick^[i + 1] w) := by
  constructor
  · show w :: golRun w t = _
    rw [golRun_eq, List.range_succ_eq_map, List.map_cons, List.map_map]
    rfl
  · exact golRun_eq t w

/-- C7 counterexample: a run of 1 tick of the flag variant emits 1 block, not
1 + 1 = 2 — generation 0 is never printed. -/
theorem claim_C7_counterexample :
    (blocksFlag rpWorld 1).length ≠ 1 + 1 := by
  show (golRun rpWorld 1).length ≠ 2
  rw [show golRun rpWorld 1 = [Tick rpWorld] from rfl]
  simp

/-! ## Claim C8: behaviour of the pattern parsers on malformed input -/

/-- The cobra variant's entry handling fails exactly on the entries its checks
flag: fewer than two fields, or `Atoi` failing on the first or second field. -/
theorem cobraEntry_none_iff (xy : String) :
    cobraEntry xy = none ↔ cobraBadEntry xy = true := by
  unfold cobraEntry cobraBadEntry
  by_cases h : (goSplit ',' xy).length < 2
  · simp [h]
  · rw [if_neg h]
    cases h0 : goAtoi ((goSplit ',' xy).getD 0 "") <;>
      cases h1 : goAtoi ((goSplit ',' xy).getD 1 "") <;>
        simp [h]

/-- If any entry of the list trips the cobra variant's checks, the loop exits
the process with a report. -/
theorem cobraLoop_reported : ∀ l : List String,
    (∃ xy ∈ l, cobraBadEntry xy = true) → cobraLoop l = .reported := by
  intro l
  induction l with
  | nil =>
    rintro ⟨xy, hmem, -⟩
    exact absurd hmem (List.not_mem_nil xy)
  | cons a rest ih =>
    rintro ⟨xy, hmem, hbad⟩
    rw [List.mem_cons] at hmem
    rcases hmem with rfl | hmem
    · have hnone : cobraEntry xy = none := (cobraEntry_none_iff xy).mpr hbad
      simp [cobraLoop, hnone]
    · by_cases hba : cobraBadEntry a = true
      · have hnone : cobraEntry a = none := (cobraEntry_none_iff a).mpr hba
        simp [cobraLoop, hnone]
      · have hne : cobraEntry a ≠ none := fun hn => hba ((cobraEntry_none_iff a).mp hn)
        obtain ⟨c, hc⟩ := Option.ne_none_iff_exists'.mp hne
        have hrest : cobraLoop rest = .reported := ih ⟨xy, hmem, hbad⟩
        simp [cobraLoop, hc, hrest]

/-- C8 counterexample: two malformed entries, per the claim's definition of
malformed, that the parsers do not fail fast on.  The cobra variant accepts
the three-field entry `"1,2,3"` as `(1, 2)`, silently ignoring the third
field; the flag variant, lacking the field-count check, panics on the
one-field entry `"5"` (index out of range) instead of reporting it. -/
theorem claim_C8_counterexample :
    specMalformedEntry "1,2,3" = true ∧
    parsePatternCobra "1,2,3" = ParseOutcome.ok [⟨1, 2⟩] ∧
    specMalformedEntry "5" = true ∧
    parsePatternFlag "5" = ParseOutcome.panicked := by
  refine ⟨by decide, by decide, by decide, by decide⟩

/-- C8 as amended: the cobra variant's parser reports and terminates the
process (exit code 1) for every pattern holding an entry its checks flag —
fewer than two comma-separated fields, or a non-integer first or second field.
Entries with extra fields are accepted with the extra fields ignored, and the
flag variant, which lacks the field-count check, panics on an entry with a
missing second field. -/
theorem claim_C8_fail_fast :
    (∀ pattern : String,
        ((goSplit ';' pattern).any fun xy => cobraBadEntry xy) = true →
          parsePatternCobra pattern = .reported) ∧
    parsePatternCobra "1,2,3" = ParseOutcome.ok [⟨1, 2⟩] ∧
    parsePatternFlag "5" = ParseOutcome.panicked := by
  refine ⟨?_, by decide, by decide⟩
  intro pattern h
  rw [List.any_eq_true] at h
  exact cobraLoop_reported _ h

/-- Witness for C8's amended statement: a pattern whose second entry has a
non-integer first field is reported. -/
theorem claim_C8_fail_fast_witness :
    ((goSplit ';' "1,2;x,3").any fun xy => cobraBadEntry xy) = true ∧
    parsePatternCobra "1,2;x,3" = ParseOutcome.reported := by
  refine ⟨by decide, ?_⟩
  exact claim_C8_fail_fast.1 "1,2;x,3" (by decide)
